import Mathlib

/-!
Verification of the cnosdb columnar block storage read path and the
secondary-index rebuild pipeline: the generated tsm1 typed block
readers over the memory-mapped accessor, and the buildtsi shard index
rebuild command.  The Go source is shallowly embedded: byte regions
become lists of bytes, machine integers become Int/Nat, fallible calls
return Except/Option, and the filesystem effects of the rebuild are an
explicit operation trace over an abstract shard-directory state.
-/

/-- An index entry locating one block inside a segment file: byte
offset (int64), byte size (uint32) and the min/max timestamps, as in
the source IndexEntry record. -/
structure IndexEntry where
  Offset : Int
  Size : Nat
  MinTime : Int
  MaxTime : Int
deriving DecidableEq

/-- Errors of the typed block reads.  The bounds guard in the source
returns the single sentinel ErrTSMClosed; failures of the external
Decode functions are represented by decodeErr. -/
inductive TSMReadError where
  | ErrTSMClosed
  | decodeErr
deriving DecidableEq

/-- The memory-mapped accessor: field b holds the currently mapped
bytes (m.b in the source).  The read/write mutex and the access counter
of the source are concurrency bookkeeping with no effect on the value a
read returns, and are not part of the state here. -/
structure mmapAccessor where
  b : List UInt8

/-- Go slicing b[lo:hi] of the mapped byte region: the bytes at
indices lo, lo+1, ..., hi-1. -/
def goSlice (b : List UInt8) (lo hi : Int) : List UInt8 :=
  (b.take hi.toNat).drop lo.toNat

/-- The byte indices of the mapped region that a typed block read hands
to its decoder: positions entry.Offset+4 through entry.Offset+entry.Size-1,
the indices covered by m.b[entry.Offset+4 : entry.Offset+entry.Size]. -/
def blockByteIndices (entry : IndexEntry) : List Int :=
  (List.range (entry.Size - 4)).map fun (k : Nat) => entry.Offset + 4 + (k : Int)

/-- mmapAccessor.readFloatBlock: guard that the mapped region covers
entry.Offset + entry.Size, else fail with ErrTSMClosed; on success run
DecodeFloatBlock on m.b[entry.Offset+4 : entry.Offset+entry.Size].
The decoder itself is outside this source slice and is a parameter. -/
def readFloatBlock {A : Type} (DecodeFloatBlock : List UInt8 → Except TSMReadError A)
    (m : mmapAccessor) (entry : IndexEntry) : Except TSMReadError A :=
  if (m.b.length : Int) < entry.Offset + (entry.Size : Int) then
    .error .ErrTSMClosed
  else
    DecodeFloatBlock (goSlice m.b (entry.Offset + 4) (entry.Offset + (entry.Size : Int)))

/-- mmapAccessor.readFloatArrayBlock, same guard, decoding into a
caller-provided columnar array (the filled array is the result). -/
def readFloatArrayBlock {A : Type} (DecodeFloatArrayBlock : List UInt8 → Except TSMReadError A)
    (m : mmapAccessor) (entry : IndexEntry) : Except TSMReadError A :=
  if (m.b.length : Int) < entry.Offset + (entry.Size : Int) then
    .error .ErrTSMClosed
  else
    DecodeFloatArrayBlock (goSlice m.b (entry.Offset + 4) (entry.Offset + (entry.Size : Int)))

/-- mmapAccessor.readIntegerBlock, same guard as readFloatBlock. -/
def readIntegerBlock {A : Type} (DecodeIntegerBlock : List UInt8 → Except TSMReadError A)
    (m : mmapAccessor) (entry : IndexEntry) : Except TSMReadError A :=
  if (m.b.length : Int) < entry.Offset + (entry.Size : Int) then
    .error .ErrTSMClosed
  else
    DecodeIntegerBlock (goSlice m.b (entry.Offset + 4) (entry.Offset + (entry.Size : Int)))

/-- mmapAccessor.readIntegerArrayBlock, same guard. -/
def readIntegerArrayBlock {A : Type} (DecodeIntegerArrayBlock : List UInt8 → Except TSMReadError A)
    (m : mmapAccessor) (entry : IndexEntry) : Except TSMReadError A :=
  if (m.b.length : Int) < entry.Offset + (entry.Size : Int) then
    .error .ErrTSMClosed
  else
    DecodeIntegerArrayBlock (goSlice m.b (entry.Offset + 4) (entry.Offset + (entry.Size : Int)))

/-- mmapAccessor.readUnsignedBlock, same guard. -/
def readUnsignedBlock {A : Type} (DecodeUnsignedBlock : List UInt8 → Except TSMReadError A)
    (m : mmapAccessor) (entry : IndexEntry) : Except TSMReadError A :=
  if (m.b.length : Int) < entry.Offset + (entry.Size : Int) then
    .error .ErrTSMClosed
  else
    DecodeUnsignedBlock (goSlice m.b (entry.Offset + 4) (entry.Offset + (entry.Size : Int)))

/-- mmapAccessor.readUnsignedArrayBlock, same guard. -/
def readUnsignedArrayBlock {A : Type} (DecodeUnsignedArrayBlock : List UInt8 → Except TSMReadError A)
    (m : mmapAccessor) (entry : IndexEntry) : Except TSMReadError A :=
  if (m.b.length : Int) < entry.Offset + (entry.Size : Int) then
    .error .ErrTSMClosed
  else
    DecodeUnsignedArrayBlock (goSlice m.b (entry.Offset + 4) (entry.Offset + (entry.Size : Int)))

/-- mmapAccessor.readStringBlock, same guard. -/
def readStringBlock {A : Type} (DecodeStringBlock : List UInt8 → Except TSMReadError A)
    (m : mmapAccessor) (entry : IndexEntry) : Except TSMReadError A :=
  if (m.b.length : Int) < entry.Offset + (entry.Size : Int) then
    .error .ErrTSMClosed
  else
    DecodeStringBlock (goSlice m.b (entry.Offset + 4) (entry.Offset + (entry.Size : Int)))

/-- mmapAccessor.readStringArrayBlock, same guard. -/
def readStringArrayBlock {A : Type} (DecodeStringArrayBlock : List UInt8 → Except TSMReadError A)
    (m : mmapAccessor) (entry : IndexEntry) : Except TSMReadError A :=
  if (m.b.length : Int) < entry.Offset + (entry.Size : Int) then
    .error .ErrTSMClosed
  else
    DecodeStringArrayBlock (goSlice m.b (entry.Offset + 4) (entry.Offset + (entry.Size : Int)))

/-- mmapAccessor.readBooleanBlock, same guard. -/
def readBooleanBlock {A : Type} (DecodeBooleanBlock : List UInt8 → Except TSMReadError A)
    (m : mmapAccessor) (entry : IndexEntry) : Except TSMReadError A :=
  if (m.b.length : Int) < entry.Offset + (entry.Size : Int) then
    .error .ErrTSMClosed
  else
    DecodeBooleanBlock (goSlice m.b (entry.Offset + 4) (entry.Offset + (entry.Size : Int)))

/-- mmapAccessor.readBooleanArrayBlock, same guard. -/
def readBooleanArrayBlock {A : Type} (DecodeBooleanArrayBlock : List UInt8 → Except TSMReadError A)
    (m : mmapAccessor) (entry : IndexEntry) : Except TSMReadError A :=
  if (m.b.length : Int) < entry.Offset + (entry.Size : Int) then
    .error .ErrTSMClosed
  else
    DecodeBooleanArrayBlock (goSlice m.b (entry.Offset + 4) (entry.Offset + (entry.Size : Int)))

/-- Dropping lo elements of the first hi elements of a list reads
exactly the elements at indices lo, lo+1, ..., hi-1. -/
theorem take_drop_eq_map_getD (b : List UInt8) (lo hi : Nat) (h : hi ≤ b.length) :
    (b.take hi).drop lo = (List.range (hi - lo)).map fun k => b.getD (lo + k) 0 := by
  apply List.ext_getElem
  · simp [Nat.min_eq_left h]
  · intro j h1 h2
    have hlen : ((b.take hi).drop lo).length = hi - lo := by
      simp [Nat.min_eq_left h]
    have hj : j < hi - lo := by omega
    have hjb : lo + j < b.length := by omega
    have hjt : lo + j < (b.take hi).length := by
      simp [Nat.min_eq_left h]; omega
    rw [List.getElem_drop]
    rw [List.getElem_take]
    simp only [List.getElem_map, List.getElem_range]
    rw [List.getD_eq_getElem b 0 hjb]

/-- On a pass of the bounds check with a nonnegative offset, the slice
handed to the decoder consists exactly of the mapped bytes at the
indices listed by blockByteIndices. -/
theorem goSlice_eq_blockBytes (m : mmapAccessor) (entry : IndexEntry)
    (h0 : 0 ≤ entry.Offset)
    (h : entry.Offset + (entry.Size : Int) ≤ (m.b.length : Int)) :
    goSlice m.b (entry.Offset + 4) (entry.Offset + (entry.Size : Int))
      = (blockByteIndices entry).map fun i => m.b.getD i.toNat 0 := by
  have h1 : (entry.Offset + (entry.Size : Int)).toNat = entry.Offset.toNat + entry.Size := by
    omega
  have h2 : (entry.Offset + 4).toNat = entry.Offset.toNat + 4 := by omega
  have h3 : entry.Offset.toNat + entry.Size ≤ m.b.length := by omega
  unfold goSlice
  rw [h1, h2, take_drop_eq_map_getD m.b _ _ h3]
  unfold blockByteIndices
  rw [List.map_map]
  have h4 : entry.Offset.toNat + entry.Size - (entry.Offset.toNat + 4) = entry.Size - 4 := by
    omega
  rw [h4]
  apply List.map_congr_left
  intro k hk
  have h5 : (entry.Offset + 4 + (k : Int)).toNat = entry.Offset.toNat + (4 + k) := by omega
  simp [Function.comp, h5, Nat.add_assoc]

/-- C1: every typed block read on the memory-mapped accessor first
checks entry.Offset + entry.Size against the length of the mapped
region; when the check fails each of the ten readers returns the
Closed error ErrTSMClosed without invoking its decoder, and when the
check passes the bytes handed to the decoder lie only at indices
strictly below the length of the mapped region, so no byte at or past
the end of the mapping is ever read. -/
theorem readTypedBlock_bounds_guard
    {A₁ A₂ A₃ A₄ A₅ A₆ A₇ A₈ A₉ A₀ : Type}
    (d₁ : List UInt8 → Except TSMReadError A₁)
    (d₂ : List UInt8 → Except TSMReadError A₂)
    (d₃ : List UInt8 → Except TSMReadError A₃)
    (d₄ : List UInt8 → Except TSMReadError A₄)
    (d₅ : List UInt8 → Except TSMReadError A₅)
    (d₆ : List UInt8 → Except TSMReadError A₆)
    (d₇ : List UInt8 → Except TSMReadError A₇)
    (d₈ : List UInt8 → Except TSMReadError A₈)
    (d₉ : List UInt8 → Except TSMReadError A₉)
    (d₀ : List UInt8 → Except TSMReadError A₀)
    (m : mmapAccessor) (entry : IndexEntry) :
    ((m.b.length : Int) < entry.Offset + (entry.Size : Int) →
      readFloatBlock d₁ m entry = .error .ErrTSMClosed ∧
      readFloatArrayBlock d₂ m entry = .error .ErrTSMClosed ∧
      readIntegerBlock d₃ m entry = .error .ErrTSMClosed ∧
      readIntegerArrayBlock d₄ m entry = .error .ErrTSMClosed ∧
      readUnsignedBlock d₅ m entry = .error .ErrTSMClosed ∧
      readUnsignedArrayBlock d₆ m entry = .error .ErrTSMClosed ∧
      readStringBlock d₇ m entry = .error .ErrTSMClosed ∧
      readStringArrayBlock d₈ m entry = .error .ErrTSMClosed ∧
      readBooleanBlock d₉ m entry = .error .ErrTSMClosed ∧
      readBooleanArrayBlock d₀ m entry = .error .ErrTSMClosed) ∧
    (entry.Offset + (entry.Size : Int) ≤ (m.b.length : Int) →
      (∀ i ∈ blockByteIndices entry, i < (m.b.length : Int)) ∧
      readFloatBlock d₁ m entry
        = d₁ (goSlice m.b (entry.Offset + 4) (entry.Offset + (entry.Size : Int))) ∧
      readBooleanBlock d₉ m entry
        = d₉ (goSlice m.b (entry.Offset + 4) (entry.Offset + (entry.Size : Int))) ∧
      (0 ≤ entry.Offset →
        goSlice m.b (entry.Offset + 4) (entry.Offset + (entry.Size : Int))
          = (blockByteIndices entry).map fun i => m.b.getD i.toNat 0)) := by
  constructor
  · intro h
    refine ⟨?_, ?_, ?_, ?_, ?_, ?_, ?_, ?_, ?_, ?_⟩ <;>
      simp [readFloatBlock, readFloatArrayBlock, readIntegerBlock, readIntegerArrayBlock,
        readUnsignedBlock, readUnsignedArrayBlock, readStringBlock, readStringArrayBlock,
        readBooleanBlock, readBooleanArrayBlock, h]
  · intro h
    have hn : ¬ ((m.b.length : Int) < entry.Offset + (entry.Size : Int)) := not_lt.mpr h
    refine ⟨?_, ?_, ?_, ?_⟩
    · intro i hi
      simp only [blockByteIndices, List.mem_map, List.mem_range] at hi
      obtain ⟨k, hk, rfl⟩ := hi
      omega
    · simp [readFloatBlock, hn]
    · simp [readBooleanBlock, hn]
    · intro h0
      exact goSlice_eq_blockBytes m entry h0 h

/-- Witness for C1: a closed accessor (empty mapping) fails a read of
an eight-byte entry with ErrTSMClosed, and on a sixteen-byte open
mapping the same entry passes the check with every handed byte index
below sixteen. -/
theorem readTypedBlock_bounds_guard_witness :
    readFloatBlock (fun s => Except.ok s.length) ⟨[]⟩ ⟨0, 8, 0, 0⟩
        = .error .ErrTSMClosed ∧
    (∀ i ∈ blockByteIndices ⟨0, 8, 0, 0⟩,
      i < ((mmapAccessor.mk (List.replicate 16 0)).b.length : Int)) := by
  constructor
  · exact ((readTypedBlock_bounds_guard (fun s => Except.ok s.length)
      (fun s => Except.ok s.length) (fun s => Except.ok s.length)
      (fun s => Except.ok s.length) (fun s => Except.ok s.length)
      (fun s => Except.ok s.length) (fun s => Except.ok s.length)
      (fun s => Except.ok s.length) (fun s => Except.ok s.length)
      (fun s => Except.ok s.length) ⟨[]⟩ ⟨0, 8, 0, 0⟩).1 (by decide)).1
  · exact ((readTypedBlock_bounds_guard (fun s => Except.ok s.length)
      (fun s => Except.ok s.length) (fun s => Except.ok s.length)
      (fun s => Except.ok s.length) (fun s => Except.ok s.length)
      (fun s => Except.ok s.length) (fun s => Except.ok s.length)
      (fun s => Except.ok s.length) (fun s => Except.ok s.length)
      (fun s => Except.ok s.length)
      (mmapAccessor.mk (List.replicate 16 0)) ⟨0, 8, 0, 0⟩).2 (by decide)).1

/-- C9: when the bounds check fails, the error returned is always the
single sentinel ErrTSMClosed, whether the accessor is closed (empty
mapping) or open but handed an out-of-range index entry; the reads
yield identical error values in the two situations, so a caller cannot
tell a closed accessor from a corrupt or stale index entry. -/
theorem bounds_failure_error_is_single_sentinel
    {A B : Type} (d : List UInt8 → Except TSMReadError A)
    (dArr : List UInt8 → Except TSMReadError B)
    (m₁ m₂ : mmapAccessor) (e₁ e₂ : IndexEntry)
    (h₁ : (m₁.b.length : Int) < e₁.Offset + (e₁.Size : Int))
    (h₂ : (m₂.b.length : Int) < e₂.Offset + (e₂.Size : Int)) :
    readFloatBlock d m₁ e₁ = .error .ErrTSMClosed ∧
    readUnsignedArrayBlock dArr m₂ e₂ = .error .ErrTSMClosed :=
  ⟨by simp [readFloatBlock, h₁], by simp [readUnsignedArrayBlock, h₂]⟩

/-- Witness for C9: a closed accessor with a well-formed entry and an
open four-byte accessor with a stale entry at offset one hundred both
fail with the same ErrTSMClosed value. -/
theorem bounds_failure_error_is_single_sentinel_witness :
    readFloatBlock (fun s => Except.ok s.length) ⟨[]⟩ ⟨0, 8, 0, 0⟩
        = .error .ErrTSMClosed ∧
    readUnsignedArrayBlock (fun s => Except.ok s.length)
        ⟨List.replicate 4 0⟩ ⟨100, 8, 0, 0⟩ = .error .ErrTSMClosed :=
  bounds_failure_error_is_single_sentinel (fun s => Except.ok s.length)
    (fun s => Except.ok s.length) ⟨[]⟩ ⟨List.replicate 4 0⟩
    ⟨0, 8, 0, 0⟩ ⟨100, 8, 0, 0⟩ (by decide) (by decide)

/-- A series key as the data it encodes: measurement name and tag set.
Modelled from the spec: the Series+Field Key encodes measurement, tag
set and field name; models.ParseKeyBytes and the composite-key split of
tsm1 are outside this source slice, so the key is modelled as the data
it encodes and the parsers as its projections. -/
structure SeriesKey where
  name : String
  tags : List (String × String)
deriving DecidableEq

/-- A composite TSM key: series key plus field name.  Modelled from the
spec (see SeriesKey). -/
structure CompositeKey where
  series : SeriesKey
  field : String
deriving DecidableEq

/-- Modelled from the spec: tsm1.SeriesAndFieldFromCompositeKey splits
a composite key into the series key and the field name. -/
def SeriesAndFieldFromCompositeKey (k : CompositeKey) : SeriesKey × String :=
  (k.series, k.field)

/-- Modelled from the spec: models.ParseKeyBytes parses the measurement
name and the tag set out of a series key (ParseKeyBytesWithTags of the
TSM loop parses the same data into a reused buffer). -/
def ParseKeyBytes (sk : SeriesKey) : String × List (String × String) :=
  (sk.name, sk.tags)

/-- One CreateSeriesListIfNotExists call: the three parallel slices of
series keys, measurement names and tag sets it is handed. -/
structure CreateCall where
  keys : List SeriesKey
  names : List String
  tags : List (List (String × String))
deriving DecidableEq

/-- The batching loop shared by IndexTSMFile and the cache phase of
IndexShard: each enumerated composite key is split into its series key,
the series key is parsed into name and tags, the three are appended to
the current batch, and a full batch of batchSize entries is flushed as
one CreateSeriesListIfNotExists call; a nonempty remainder is flushed
after the loop.  kb, nb and tb are the current keysBatch, namesBatch
and tagsBatch. -/
def batchInsertLoop (b : Nat) : List CompositeKey → List SeriesKey → List String →
    List (List (String × String)) → List CreateCall
  | [], kb, nb, tb => if 0 < kb.length then [⟨kb, nb, tb⟩] else []
  | key :: rest, kb, nb, tb =>
    let sk := (SeriesAndFieldFromCompositeKey key).1
    let nt := ParseKeyBytes sk
    let kb2 := kb ++ [sk]
    let nb2 := nb ++ [nt.1]
    let tb2 := tb ++ [nt.2]
    if kb2.length = b then ⟨kb2, nb2, tb2⟩ :: batchInsertLoop b rest [] [] []
    else batchInsertLoop b rest kb2 nb2 tb2

/-- The CreateSeriesListIfNotExists calls IndexTSMFile issues for the
keys enumerated by one TSM file key index (KeyAt order), starting from
empty batches. -/
def tsmFileCalls (b : Nat) (keys : List CompositeKey) : List CreateCall :=
  batchInsertLoop b keys [] [] []

/-- The CreateSeriesListIfNotExists calls the cache phase of IndexShard
issues for the keys enumerated by cache.Keys, starting from empty
batches; the loop body is identical to the one of IndexTSMFile. -/
def cacheCalls (b : Nat) (keys : List CompositeKey) : List CreateCall :=
  batchInsertLoop b keys [] [] []

/-- One TSM file of a shard as the rebuild sees it: whether os.Open
succeeds, whether tsm1.NewTSMReader succeeds, and the composite keys
its key index enumerates in KeyAt order. -/
structure TSMFile where
  openOk : Bool
  parseOk : Bool
  keys : List CompositeKey
deriving DecidableEq

/-- The abstract error values the shard rebuild can surface. -/
inductive ShardErr where
  | openErr
  | readDirErr
  | walListErr
  | cacheLoadErr
  | removeErr
  | openIndexErr
  | closeErr
  | renameErr
deriving DecidableEq

/-- The filesystem-visible operations IndexShard performs on the shard
directory, in program order.  insertTSM and insertCache are the
CreateSeriesListIfNotExists calls of the two call sites; everything
except renameTmpToIndex acts only on the temp path .index. -/
inductive ShardOp where
  | removeTmp
  | openTmpIndex
  | insertTSM (c : CreateCall)
  | insertCache (c : CreateCall)
  | compact
  | closeIndex
  | renameTmpToIndex
deriving DecidableEq

/-- IndexTSMFile: an os.Open failure is returned to the caller; a
NewTSMReader failure is logged and the file skipped with a nil error;
otherwise the key index is enumerated and batch-inserted.  Result: the
CreateSeriesListIfNotExists calls issued and the returned error. -/
def IndexTSMFileRun (b : Nat) (f : TSMFile) : List CreateCall × Option ShardErr :=
  if f.openOk then
    if f.parseOk then (tsmFileCalls b f.keys, none)
    else ([], none)
  else ([], some .openErr)

/-- The loop of IndexShard over the collected TSM file paths: each file
is processed by IndexTSMFile and a non-nil error aborts the loop. -/
def indexTSMFilesOps (b : Nat) : List TSMFile → List ShardOp × Option ShardErr
  | [] => ([], none)
  | f :: rest =>
    match IndexTSMFileRun b f with
    | (calls, some e) => (calls.map ShardOp.insertTSM, some e)
    | (calls, none) =>
      match indexTSMFilesOps b rest with
      | (ops, r) => (calls.map ShardOp.insertTSM ++ ops, r)

/-- State of the shard WAL directory as collectWALFiles observes it. -/
inductive WalDirState where
  | emptyPath
  | missing
  | unreadable
  | present (files : List String)
deriving DecidableEq

/-- Errors of collectWALFiles: notExist stands for os.ErrNotExist and
for a stat error satisfying os.IsNotExist; ioErr for any other
directory-listing error. -/
inductive WalListErr where
  | notExist
  | ioErr
deriving DecidableEq

/-- collectWALFiles: an empty path and a missing directory report a
not-exist error, a failing directory listing reports the underlying
error, and otherwise the files with the wal extension are returned. -/
def collectWALFiles : WalDirState → Except WalListErr (List String)
  | .emptyPath => .error .notExist
  | .missing => .error .notExist
  | .unreadable => .error .ioErr
  | .present files => .ok (files.filter fun f => f.endsWith ".wal")

/-- Environment of one IndexShard run: batch size, outcome of each
fallible step, the TSM files of the shard, the WAL directory state, and
the keys the WAL-replayed cache enumerates. -/
structure ShardEnv where
  batchSize : Nat
  removeTmpOk : Bool
  openTmpOk : Bool
  collectTSMOk : Bool
  tsmFiles : List TSMFile
  walDir : WalDirState
  cacheLoadOk : Bool
  cacheKeys : List CompositeKey
  closeOk : Bool
  renameOk : Bool
deriving DecidableEq

/-- The wal/cache phase of IndexShard: a not-exist error from
collectWALFiles skips the phase without error; any other listing error
aborts; otherwise the cache is built by the loader (which can fail) and
the cache keys are batch-inserted. -/
def cachePhaseOps (env : ShardEnv) : List ShardOp × Option ShardErr :=
  match collectWALFiles env.walDir with
  | .error e => if e = .notExist then ([], none) else ([], some .walListErr)
  | .ok _ =>
    if env.cacheLoadOk then
      ((cacheCalls env.batchSize env.cacheKeys).map ShardOp.insertCache, none)
    else ([], some .cacheLoadErr)

/-- The contents of the shard directory relevant to the rebuild: the
final index path and the temp path .index, each either absent or
holding the series keys inserted so far. -/
structure ShardFS where
  indexDir : Option (List SeriesKey)
  tmpDir : Option (List SeriesKey)
deriving DecidableEq

/-- IndexShard as the sequence of shard-directory operations it
performs together with its returned error: the stat guard on the final
index path, the temp cleanup, the temp index open, the TSM loop, the
wal/cache phase, compaction, close and the final rename, in source
order, each failing step aborting the run. -/
def IndexShardRun (env : ShardEnv) (fs : ShardFS) : List ShardOp × Option ShardErr :=
  if fs.indexDir.isSome then ([], none)
  else if !env.removeTmpOk then ([], some .removeErr)
  else if !env.openTmpOk then ([.removeTmp], some .openIndexErr)
  else if !env.collectTSMOk then ([.removeTmp, .openTmpIndex], some .readDirErr)
  else
    match indexTSMFilesOps env.batchSize env.tsmFiles with
    | (tsmOps, some e) => (.removeTmp :: .openTmpIndex :: tsmOps, some e)
    | (tsmOps, none) =>
      match cachePhaseOps env with
      | (walOps, some e) => (.removeTmp :: .openTmpIndex :: (tsmOps ++ walOps), some e)
      | (walOps, none) =>
        if !env.closeOk then
          (.removeTmp :: .openTmpIndex :: (tsmOps ++ walOps ++ [.compact]), some .closeErr)
        else if !env.renameOk then
          (.removeTmp :: .openTmpIndex :: (tsmOps ++ walOps ++ [.compact, .closeIndex]),
            some .renameErr)
        else
          (.removeTmp :: .openTmpIndex ::
            (tsmOps ++ walOps ++ [.compact, .closeIndex, .renameTmpToIndex]), none)

/-- Effect of one shard operation on the shard directory: everything
except the final rename touches only the temp path; the rename moves
the temp directory to the final index path. -/
def applyShardOp (fs : ShardFS) : ShardOp → ShardFS
  | .removeTmp => ⟨fs.indexDir, none⟩
  | .openTmpIndex => ⟨fs.indexDir, some []⟩
  | .insertTSM c => ⟨fs.indexDir, fs.tmpDir.map (· ++ c.keys)⟩
  | .insertCache c => ⟨fs.indexDir, fs.tmpDir.map (· ++ c.keys)⟩
  | .compact => fs
  | .closeIndex => fs
  | .renameTmpToIndex => ⟨fs.tmpDir, none⟩

/-- Effect of a sequence of shard operations, first to last. -/
def applyShardOps (fs : ShardFS) (l : List ShardOp) : ShardFS :=
  l.foldl applyShardOp fs

/-- The batches flushed by the batching loop concatenate, in order, to
the accumulated batch followed by the series keys of the enumerated
composite keys: no key is dropped. -/
theorem batchInsertLoop_flatten (b : Nat) (hb : 0 < b) :
    ∀ (keys : List CompositeKey) (kb : List SeriesKey) (nb : List String)
      (tb : List (List (String × String))), kb.length < b →
      ((batchInsertLoop b keys kb nb tb).map CreateCall.keys).flatten
        = kb ++ keys.map fun k => (SeriesAndFieldFromCompositeKey k).1 := by
  intro keys
  induction keys with
  | nil =>
    intro kb nb tb h
    by_cases hkb : 0 < kb.length
    · simp [batchInsertLoop, hkb]
    · have hnil : kb = [] := List.eq_nil_of_length_eq_zero (by omega)
      simp [batchInsertLoop, hkb, hnil]
  | cons key rest ih =>
    intro kb nb tb h
    simp only [batchInsertLoop]
    by_cases hflush : (kb ++ [(SeriesAndFieldFromCompositeKey key).1]).length = b
    · rw [if_pos hflush, List.map_cons, List.flatten_cons, ih [] [] [] (by simpa using hb)]
      simp
    · rw [if_neg hflush,
        ih _ _ _ (by simp only [List.length_append, List.length_singleton, List.length_nil, List.length_cons] at hflush ⊢; omega)]
      simp

/-- The number of batches the batching loop flushes is the ceiling of
the total number of keys over the batch size. -/
theorem batchInsertLoop_length (b : Nat) (hb : 0 < b) :
    ∀ (keys : List CompositeKey) (kb : List SeriesKey) (nb : List String)
      (tb : List (List (String × String))), kb.length < b →
      (batchInsertLoop b keys kb nb tb).length = (kb.length + keys.length + b - 1) / b := by
  intro keys
  induction keys with
  | nil =>
    intro kb nb tb h
    by_cases hkb : 0 < kb.length
    · have h2 : (kb.length + 0 + b - 1) / b = 1 := by
        have h1 : kb.length + 0 + b - 1 = (kb.length - 1) + b := by omega
        rw [h1, Nat.add_div_right _ hb, Nat.div_eq_of_lt (by omega)]
      simp only [batchInsertLoop, if_pos hkb, List.length_singleton, List.length_nil]
      exact h2.symm
    · have h2 : (kb.length + 0 + b - 1) / b = 0 := by
        apply Nat.div_eq_of_lt; omega
      simp only [batchInsertLoop, if_neg hkb, List.length_nil]
      exact h2.symm
  | cons key rest ih =>
    intro kb nb tb h
    simp only [batchInsertLoop]
    by_cases hflush : (kb ++ [(SeriesAndFieldFromCompositeKey key).1]).length = b
    · rw [if_pos hflush, List.length_cons, ih [] [] [] (by simpa using hb)]
      have hlen : kb.length + 1 = b := by simpa using hflush
      simp only [List.length_nil, List.length_cons, Nat.zero_add]
      have h1 : kb.length + (rest.length + 1) + b - 1 = (rest.length + b - 1) + b := by omega
      rw [h1, Nat.add_div_right _ hb]
    · have hlt : (kb ++ [(SeriesAndFieldFromCompositeKey key).1]).length < b := by
        simp only [List.length_append, List.length_singleton, List.length_nil, List.length_cons] at hflush ⊢
        omega
      rw [if_neg hflush, ih _ _ _ hlt]
      have h1 : (kb ++ [(SeriesAndFieldFromCompositeKey key).1]).length + rest.length + b - 1
          = kb.length + (key :: rest).length + b - 1 := by
        simp only [List.length_append, List.length_singleton, List.length_nil, List.length_cons]
        omega
      rw [h1]

/-- Every batch the batching loop flushes, except possibly the final
remainder, carries exactly the batch size of keys. -/
theorem batchInsertLoop_dropLast (b : Nat) :
    ∀ (keys : List CompositeKey) (kb : List SeriesKey) (nb : List String)
      (tb : List (List (String × String))),
      ∀ c ∈ (batchInsertLoop b keys kb nb tb).dropLast, c.keys.length = b := by
  intro keys
  induction keys with
  | nil =>
    intro kb nb tb c hc
    by_cases hkb : 0 < kb.length <;> simp [batchInsertLoop, hkb] at hc
  | cons key rest ih =>
    intro kb nb tb c hc
    simp only [batchInsertLoop] at hc
    by_cases hflush : (kb ++ [(SeriesAndFieldFromCompositeKey key).1]).length = b
    · rw [if_pos hflush] at hc
      rcases hrec : batchInsertLoop b rest [] [] [] with _ | ⟨c0, cs⟩
      · rw [hrec] at hc
        simp at hc
      · rw [hrec, List.dropLast_cons₂] at hc
        rcases List.mem_cons.mp hc with hc1 | hc1
        · subst hc1
          simpa using hflush
        · exact ih [] [] [] c (by rw [hrec]; exact hc1)
    · rw [if_neg hflush] at hc
      exact ih _ _ _ c hc

/-- Every call the batching loop flushes carries a nonzero number of
keys, and its name slice and tag slice are the pointwise parses of its
key slice. -/
theorem batchInsertLoop_calls (b : Nat) :
    ∀ (keys : List CompositeKey) (kb : List SeriesKey) (nb : List String)
      (tb : List (List (String × String))),
      nb = kb.map SeriesKey.name → tb = kb.map SeriesKey.tags →
      ∀ c ∈ batchInsertLoop b keys kb nb tb,
        0 < c.keys.length ∧ c.names = c.keys.map (fun k => (ParseKeyBytes k).1)
          ∧ c.tags = c.keys.map (fun k => (ParseKeyBytes k).2) := by
  intro keys
  induction keys with
  | nil =>
    intro kb nb tb hn ht c hc
    by_cases hkb : 0 < kb.length
    · simp only [batchInsertLoop, if_pos hkb, List.mem_singleton] at hc
      subst hc
      exact ⟨hkb, by simp [hn, ParseKeyBytes], by simp [ht, ParseKeyBytes]⟩
    · simp [batchInsertLoop, hkb] at hc
  | cons key rest ih =>
    intro kb nb tb hn ht c hc
    simp only [batchInsertLoop] at hc
    by_cases hflush : (kb ++ [(SeriesAndFieldFromCompositeKey key).1]).length = b
    · rw [if_pos hflush] at hc
      rcases List.mem_cons.mp hc with hc1 | hc1
      · subst hc1
        refine ⟨by simp, ?_, ?_⟩
        · simp [hn, ParseKeyBytes]
        · simp [ht, ParseKeyBytes]
      · exact ih [] [] [] rfl rfl c hc1
    · rw [if_neg hflush] at hc
      refine ih _ _ _ ?_ ?_ c hc
      · simp [hn, ParseKeyBytes]
      · simp [ht, ParseKeyBytes]

/-- C3: for a key sequence of size k enumerated from one source and a
batch size b > 0, both the TSM-file loop and the cache loop issue
exactly the ceiling of k over b, written (k+b-1)/b, calls to
CreateSeriesListIfNotExists; every batch except possibly the last
carries exactly b keys; and the batches concatenate, in order, to the
series keys extracted from the enumerated key sequence, with no key
dropped. -/
theorem rebuild_batching_exact (b : Nat) (hb : 0 < b) (keys : List CompositeKey) :
    (tsmFileCalls b keys).length = (keys.length + b - 1) / b
    ∧ (∀ c ∈ (tsmFileCalls b keys).dropLast, c.keys.length = b)
    ∧ ((tsmFileCalls b keys).map CreateCall.keys).flatten
        = keys.map (fun k => (SeriesAndFieldFromCompositeKey k).1)
    ∧ (cacheCalls b keys).length = (keys.length + b - 1) / b
    ∧ (∀ c ∈ (cacheCalls b keys).dropLast, c.keys.length = b)
    ∧ ((cacheCalls b keys).map CreateCall.keys).flatten
        = keys.map (fun k => (SeriesAndFieldFromCompositeKey k).1) := by
  refine ⟨?_, ?_, ?_, ?_, ?_, ?_⟩
  · simpa [tsmFileCalls] using batchInsertLoop_length b hb keys [] [] [] (by simpa using hb)
  · exact batchInsertLoop_dropLast b keys [] [] []
  · simpa [tsmFileCalls] using batchInsertLoop_flatten b hb keys [] [] [] (by simpa using hb)
  · simpa [cacheCalls] using batchInsertLoop_length b hb keys [] [] [] (by simpa using hb)
  · exact batchInsertLoop_dropLast b keys [] [] []
  · simpa [cacheCalls] using batchInsertLoop_flatten b hb keys [] [] [] (by simpa using hb)

/-- Witness for C3: three keys at batch size two give exactly two calls
from each source, the first full, and the concatenation of the
flushed batches recovers all three series keys. -/
theorem rebuild_batching_exact_witness :
    (tsmFileCalls 2 [⟨⟨"cpu", []⟩, "value"⟩, ⟨⟨"mem", []⟩, "value"⟩,
        ⟨⟨"disk", []⟩, "value"⟩]).length = (3 + 2 - 1) / 2 := by
  have h := (rebuild_batching_exact 2 (by decide)
    [⟨⟨"cpu", []⟩, "value"⟩, ⟨⟨"mem", []⟩, "value"⟩, ⟨⟨"disk", []⟩, "value"⟩]).1
  simpa using h

/-- C10: every CreateSeriesListIfNotExists call issued by the rebuild,
whether from the TSM-file loop or from the cache loop, carries three
parallel slices of equal nonzero length in which the i-th name and the
i-th tag set are the parses of the i-th series key. -/
theorem createSeries_calls_parallel_slices (b : Nat) (_hb : 0 < b) (keys : List CompositeKey) :
    ∀ c ∈ tsmFileCalls b keys ++ cacheCalls b keys,
      0 < c.keys.length
      ∧ c.names.length = c.keys.length ∧ c.tags.length = c.keys.length
      ∧ c.names = c.keys.map (fun k => (ParseKeyBytes k).1)
      ∧ c.tags = c.keys.map (fun k => (ParseKeyBytes k).2) := by
  intro c hc
  have h : c ∈ batchInsertLoop b keys [] [] [] := by
    rcases List.mem_append.mp hc with h | h
    · exact h
    · exact h
  obtain ⟨h1, h2, h3⟩ := batchInsertLoop_calls b keys [] [] [] rfl rfl c h
  exact ⟨h1, by rw [h2]; simp, by rw [h3]; simp, h2, h3⟩

/-- Witness for C10: the single call issued for one key carries the
parsed name and tag set of that key in slices of length one. -/
theorem createSeries_calls_parallel_slices_witness :
    0 < (CreateCall.mk [⟨"cpu", [("host", "a")]⟩] ["cpu"] [[("host", "a")]]).keys.length
    ∧ (CreateCall.mk [⟨"cpu", [("host", "a")]⟩] ["cpu"] [[("host", "a")]]).names.length
        = (CreateCall.mk [⟨"cpu", [("host", "a")]⟩] ["cpu"] [[("host", "a")]]).keys.length
    ∧ (CreateCall.mk [⟨"cpu", [("host", "a")]⟩] ["cpu"] [[("host", "a")]]).tags.length
        = (CreateCall.mk [⟨"cpu", [("host", "a")]⟩] ["cpu"] [[("host", "a")]]).keys.length
    ∧ (CreateCall.mk [⟨"cpu", [("host", "a")]⟩] ["cpu"] [[("host", "a")]]).names
        = (CreateCall.mk [⟨"cpu", [("host", "a")]⟩] ["cpu"] [[("host", "a")]]).keys.map
            (fun k => (ParseKeyBytes k).1)
    ∧ (CreateCall.mk [⟨"cpu", [("host", "a")]⟩] ["cpu"] [[("host", "a")]]).tags
        = (CreateCall.mk [⟨"cpu", [("host", "a")]⟩] ["cpu"] [[("host", "a")]]).keys.map
            (fun k => (ParseKeyBytes k).2) :=
  createSeries_calls_parallel_slices 2 (by decide) [⟨⟨"cpu", [("host", "a")]⟩, "value"⟩]
    (CreateCall.mk [⟨"cpu", [("host", "a")]⟩] ["cpu"] [[("host", "a")]]) (by decide)

/-- Every shard operation other than the final rename leaves the final
index path untouched: staging happens only at the temp path. -/
theorem applyShardOp_indexDir (fs : ShardFS) (op : ShardOp)
    (h : op ≠ ShardOp.renameTmpToIndex) :
    (applyShardOp fs op).indexDir = fs.indexDir := by
  cases op <;> first | rfl | exact absurd rfl h

/-- A sequence of shard operations that does not contain the final
rename leaves the final index path untouched. -/
theorem applyShardOps_indexDir (l : List ShardOp) :
    ∀ fs : ShardFS, ShardOp.renameTmpToIndex ∉ l →
      (applyShardOps fs l).indexDir = fs.indexDir := by
  induction l with
  | nil => intro fs _; rfl
  | cons op rest ih =>
    intro fs h
    have hop : op ≠ ShardOp.renameTmpToIndex := by
      intro he
      exact h (he ▸ List.mem_cons_self op rest)
    have hrest : ShardOp.renameTmpToIndex ∉ rest := fun hm => h (List.mem_cons_of_mem op hm)
    calc (applyShardOps fs (op :: rest)).indexDir
        = (applyShardOps (applyShardOp fs op) rest).indexDir := rfl
      _ = (applyShardOp fs op).indexDir := ih _ hrest
      _ = fs.indexDir := applyShardOp_indexDir fs op hop

/-- Every operation the TSM loop contributes to the trace is a series
insert from the TSM call site. -/
theorem indexTSMFilesOps_ops (b : Nat) :
    ∀ files : List TSMFile, ∀ op ∈ (indexTSMFilesOps b files).1,
      ∃ c, op = ShardOp.insertTSM c := by
  intro files
  induction files with
  | nil =>
    intro op hop
    simp [indexTSMFilesOps] at hop
  | cons f rest ih =>
    intro op hop
    rcases hf : IndexTSMFileRun b f with ⟨calls, r⟩
    cases r with
    | some e =>
      simp only [indexTSMFilesOps, hf] at hop
      rcases List.mem_map.mp hop with ⟨c, _, rfl⟩
      exact ⟨c, rfl⟩
    | none =>
      rcases hrec : indexTSMFilesOps b rest with ⟨ops, r2⟩
      simp only [indexTSMFilesOps, hf, hrec] at hop
      rcases List.mem_append.mp hop with hm | hm
      · rcases List.mem_map.mp hm with ⟨c, _, rfl⟩
        exact ⟨c, rfl⟩
      · exact ih op (by rw [hrec]; exact hm)

/-- Every operation the wal/cache phase contributes to the trace is a
series insert from the cache call site. -/
theorem cachePhaseOps_ops (env : ShardEnv) :
    ∀ op ∈ (cachePhaseOps env).1, ∃ c, op = ShardOp.insertCache c := by
  intro op hop
  cases hw : env.walDir with
  | emptyPath => simp [cachePhaseOps, collectWALFiles, hw] at hop
  | missing => simp [cachePhaseOps, collectWALFiles, hw] at hop
  | unreadable => simp [cachePhaseOps, collectWALFiles, hw] at hop
  | present files =>
    cases hcl : env.cacheLoadOk with
    | false => simp [cachePhaseOps, collectWALFiles, hw, hcl] at hop
    | true =>
      simp only [cachePhaseOps, collectWALFiles, hw, hcl, if_true] at hop
      rcases List.mem_map.mp hop with ⟨c, _, rfl⟩
      exact ⟨c, rfl⟩

/-- Structural case analysis of an IndexShard run on a shard whose
final index path is absent: the run stops before the temp open, or it
opens the temp index and performs only inserts, compaction and close
before either aborting with an error or finishing with the single
final rename, which happens only when close succeeded. -/
theorem indexShardRun_cases (env : ShardEnv) (fs : ShardFS) (h : fs.indexDir = none) :
    (∃ e, IndexShardRun env fs = ([], some e))
    ∨ IndexShardRun env fs = ([], none) ∧ False
    ∨ (∃ e, IndexShardRun env fs = ([ShardOp.removeTmp], some e))
    ∨ (∃ (mid : List ShardOp) (e : ShardErr),
        IndexShardRun env fs = (ShardOp.removeTmp :: ShardOp.openTmpIndex :: mid, some e)
        ∧ (∀ op ∈ mid, (∃ c, op = ShardOp.insertTSM c) ∨ (∃ c, op = ShardOp.insertCache c)
            ∨ op = ShardOp.compact ∨ op = ShardOp.closeIndex))
    ∨ (∃ mid : List ShardOp,
        IndexShardRun env fs
          = (ShardOp.removeTmp :: ShardOp.openTmpIndex :: (mid ++ [ShardOp.renameTmpToIndex]),
             none)
        ∧ (∀ op ∈ mid, (∃ c, op = ShardOp.insertTSM c) ∨ (∃ c, op = ShardOp.insertCache c)
            ∨ op = ShardOp.compact ∨ op = ShardOp.closeIndex)
        ∧ env.closeOk = true ∧ env.renameOk = true) := by
  have hs : fs.indexDir.isSome = false := by simp [h]
  cases hrm : env.removeTmpOk with
  | false =>
    refine Or.inl ⟨ShardErr.removeErr, ?_⟩
    simp [IndexShardRun, hs, hrm]
  | true =>
  cases hop : env.openTmpOk with
  | false =>
    refine Or.inr (Or.inr (Or.inl ⟨ShardErr.openIndexErr, ?_⟩))
    simp [IndexShardRun, hs, hrm, hop]
  | true =>
  cases hct : env.collectTSMOk with
  | false =>
    refine Or.inr (Or.inr (Or.inr (Or.inl ⟨[], ShardErr.readDirErr, ?_, ?_⟩)))
    · simp [IndexShardRun, hs, hrm, hop, hct]
    · intro op hm
      simp at hm
  | true =>
  rcases ht : indexTSMFilesOps env.batchSize env.tsmFiles with ⟨tsmOps, r1⟩
  have htsmCls : ∀ op ∈ tsmOps, ∃ c, op = ShardOp.insertTSM c := by
    have hcls := indexTSMFilesOps_ops env.batchSize env.tsmFiles
    rw [ht] at hcls
    exact hcls
  cases r1 with
  | some e =>
    refine Or.inr (Or.inr (Or.inr (Or.inl ⟨tsmOps, e, ?_, ?_⟩)))
    · simp [IndexShardRun, hs, hrm, hop, hct, ht]
    · intro op hm
      exact Or.inl (htsmCls op hm)
  | none =>
  rcases hw : cachePhaseOps env with ⟨walOps, r2⟩
  have hwalCls : ∀ op ∈ walOps, ∃ c, op = ShardOp.insertCache c := by
    have hcls := cachePhaseOps_ops env
    rw [hw] at hcls
    exact hcls
  have hmid : ∀ (tail : List ShardOp),
      (∀ op ∈ tail, op = ShardOp.compact ∨ op = ShardOp.closeIndex) →
      ∀ op ∈ tsmOps ++ walOps ++ tail,
        (∃ c, op = ShardOp.insertTSM c) ∨ (∃ c, op = ShardOp.insertCache c)
          ∨ op = ShardOp.compact ∨ op = ShardOp.closeIndex := by
    intro tail htail op hm
    rcases List.mem_append.mp hm with hm1 | hm1
    · rcases List.mem_append.mp hm1 with hm2 | hm2
      · exact Or.inl (htsmCls op hm2)
      · exact Or.inr (Or.inl (hwalCls op hm2))
    · rcases htail op hm1 with h1 | h1
      · exact Or.inr (Or.inr (Or.inl h1))
      · exact Or.inr (Or.inr (Or.inr h1))
  cases r2 with
  | some e =>
    refine Or.inr (Or.inr (Or.inr (Or.inl ⟨tsmOps ++ walOps, e, ?_, ?_⟩)))
    · simp [IndexShardRun, hs, hrm, hop, hct, ht, hw]
    · have := hmid [] (by intro op hm; simp at hm)
      simpa using this
  | none =>
  cases hcl : env.closeOk with
  | false =>
    refine Or.inr (Or.inr (Or.inr (Or.inl
      ⟨tsmOps ++ walOps ++ [ShardOp.compact], ShardErr.closeErr, ?_, ?_⟩)))
    · simp [IndexShardRun, hs, hrm, hop, hct, ht, hw, hcl]
    · exact hmid [ShardOp.compact] (by intro op hm; simp at hm; simp [hm])
  | true =>
  cases hrn : env.renameOk with
  | false =>
    refine Or.inr (Or.inr (Or.inr (Or.inl
      ⟨tsmOps ++ walOps ++ [ShardOp.compact, ShardOp.closeIndex], ShardErr.renameErr, ?_, ?_⟩)))
    · simp [IndexShardRun, hs, hrm, hop, hct, ht, hw, hcl, hrn]
    · refine hmid [ShardOp.compact, ShardOp.closeIndex] ?_
      intro op hm
      rcases List.mem_cons.mp hm with rfl | hm1
      · exact Or.inl rfl
      · rcases List.mem_singleton.mp hm1 with rfl
        exact Or.inr rfl
  | true =>
    refine Or.inr (Or.inr (Or.inr (Or.inr
      ⟨tsmOps ++ walOps ++ [ShardOp.compact, ShardOp.closeIndex], ?_, ?_, rfl, rfl⟩)))
    · have hassoc : (tsmOps ++ walOps ++ [ShardOp.compact, ShardOp.closeIndex])
          ++ [ShardOp.renameTmpToIndex]
          = tsmOps ++ walOps
            ++ [ShardOp.compact, ShardOp.closeIndex, ShardOp.renameTmpToIndex] := by
        simp
      rw [hassoc]
      simp [IndexShardRun, hs, hrm, hop, hct, ht, hw, hcl, hrn]
    · refine hmid [ShardOp.compact, ShardOp.closeIndex] ?_
      intro op hm
      rcases List.mem_cons.mp hm with rfl | hm1
      · exact Or.inl rfl
      · rcases List.mem_singleton.mp hm1 with rfl
        exact Or.inr rfl

/-- C4: on a shard whose canonical index path already exists, the run
performs no operation on the shard directory and returns a nil error:
the trace is empty and the directory state is unchanged. -/
theorem indexShard_skips_existing_index (env : ShardEnv) (fs : ShardFS)
    (h : fs.indexDir.isSome) :
    IndexShardRun env fs = ([], none)
    ∧ applyShardOps fs (IndexShardRun env fs).1 = fs := by
  have h1 : IndexShardRun env fs = ([], none) := by
    unfold IndexShardRun
    rw [if_pos h]
  refine ⟨h1, ?_⟩
  rw [h1]
  rfl

/-- Witness for C4: a shard with an existing index directory is left
untouched and the run succeeds. -/
theorem indexShard_skips_existing_index_witness :
    IndexShardRun ⟨10000, true, true, true, [], WalDirState.missing, true, [], true, true⟩
        ⟨some [], none⟩ = ([], none)
    ∧ applyShardOps ⟨some [], none⟩
        (IndexShardRun ⟨10000, true, true, true, [], WalDirState.missing, true, [], true, true⟩
          ⟨some [], none⟩).1 = ⟨some [], none⟩ :=
  indexShard_skips_existing_index _ _ rfl

/-- C2: on a shard without a final index, every operation except the
final rename stages only at the temp path; whenever the temp index is
opened the temp path was removed first; interrupting the run after any
proper prefix of its trace leaves the final index path absent; and the
final index path is created only by the single rename, which is the
last operation of the trace and is executed only after close succeeded
and with a nil overall error. -/
theorem indexShard_staging_atomic_publish (env : ShardEnv) (fs : ShardFS)
    (h : fs.indexDir = none) :
    (∀ (g : ShardFS) (op : ShardOp), op ≠ ShardOp.renameTmpToIndex →
        (applyShardOp g op).indexDir = g.indexDir)
    ∧ (ShardOp.openTmpIndex ∈ (IndexShardRun env fs).1 →
        ∃ rest, (IndexShardRun env fs).1 = ShardOp.removeTmp :: ShardOp.openTmpIndex :: rest)
    ∧ (∀ k, k < (IndexShardRun env fs).1.length →
        (applyShardOps fs ((IndexShardRun env fs).1.take k)).indexDir = none)
    ∧ (ShardOp.renameTmpToIndex ∈ (IndexShardRun env fs).1 →
        (IndexShardRun env fs).1.getLast? = some ShardOp.renameTmpToIndex
        ∧ List.count ShardOp.renameTmpToIndex (IndexShardRun env fs).1 = 1
        ∧ (IndexShardRun env fs).2 = none ∧ env.closeOk = true) := by
  refine ⟨fun g op hne => applyShardOp_indexDir g op hne, ?_⟩
  have hpre : ∀ l : List ShardOp, ShardOp.renameTmpToIndex ∉ l →
      ∀ k, (applyShardOps fs (l.take k)).indexDir = none := by
    intro l hnr k
    have hnr2 : ShardOp.renameTmpToIndex ∉ l.take k := fun hm => hnr (List.take_subset k l hm)
    rw [applyShardOps_indexDir _ fs hnr2, h]
  rcases indexShardRun_cases env fs h with ⟨e, hE⟩ | ⟨_, hF⟩ | ⟨e, hE⟩
    | ⟨mid, e, hE, hMid⟩ | ⟨mid, hE, hMid, hClose, _⟩
  · refine ⟨?_, ?_, ?_⟩
    · intro hmem
      rw [hE] at hmem
      simp at hmem
    · intro k _
      rw [hE]
      exact hpre [] (by simp) k
    · intro hmem
      rw [hE] at hmem
      simp at hmem
  · exact absurd hF id
  · refine ⟨?_, ?_, ?_⟩
    · intro hmem
      rw [hE] at hmem
      simp at hmem
    · intro k _
      rw [hE]
      exact hpre [ShardOp.removeTmp] (by simp) k
    · intro hmem
      rw [hE] at hmem
      simp at hmem
  · have hnr : ShardOp.renameTmpToIndex ∉ (IndexShardRun env fs).1 := by
      rw [hE]
      intro hm
      rcases List.mem_cons.mp hm with hm1 | hm1
      · exact ShardOp.noConfusion hm1
      rcases List.mem_cons.mp hm1 with hm2 | hm2
      · exact ShardOp.noConfusion hm2
      rcases hMid _ hm2 with ⟨c, hc⟩ | ⟨c, hc⟩ | hc | hc <;> exact ShardOp.noConfusion hc
    refine ⟨?_, ?_, ?_⟩
    · intro _
      exact ⟨mid, by rw [hE]⟩
    · intro k _
      exact hpre _ hnr k
    · intro hmem
      exact absurd hmem hnr
  · have hshape : (IndexShardRun env fs).1
        = (ShardOp.removeTmp :: ShardOp.openTmpIndex :: mid) ++ [ShardOp.renameTmpToIndex] := by
      rw [hE]
      rfl
    have hnrpre : ShardOp.renameTmpToIndex ∉ ShardOp.removeTmp :: ShardOp.openTmpIndex :: mid := by
      intro hm
      rcases List.mem_cons.mp hm with hm1 | hm1
      · exact ShardOp.noConfusion hm1
      rcases List.mem_cons.mp hm1 with hm2 | hm2
      · exact ShardOp.noConfusion hm2
      rcases hMid _ hm2 with ⟨c, hc⟩ | ⟨c, hc⟩ | hc | hc <;> exact ShardOp.noConfusion hc
    refine ⟨?_, ?_, ?_⟩
    · intro _
      exact ⟨mid ++ [ShardOp.renameTmpToIndex], by rw [hE]⟩
    · intro k hk
      have hlen : (IndexShardRun env fs).1.length
          = (ShardOp.removeTmp :: ShardOp.openTmpIndex :: mid).length + 1 := by
        rw [hshape, List.length_append, List.length_singleton]
      have hkle : k ≤ (ShardOp.removeTmp :: ShardOp.openTmpIndex :: mid).length := by omega
      have htake : (IndexShardRun env fs).1.take k
          = (ShardOp.removeTmp :: ShardOp.openTmpIndex :: mid).take k := by
        rw [hshape, List.take_append_of_le_length hkle]
      rw [htake]
      exact hpre _ hnrpre k
    · intro _
      refine ⟨?_, ?_, by rw [hE], hClose⟩
      · rw [hshape, List.getLast?_concat]
      · rw [hshape, List.count_append, List.count_eq_zero.mpr hnrpre]
        simp
  
/-- Witness for C2: a full successful run over one TSM file: after the
first three operations of the trace the final index path is still
absent. -/
theorem indexShard_staging_atomic_publish_witness :
    (applyShardOps ⟨none, none⟩
      ((IndexShardRun ⟨2, true, true, true, [⟨true, true, [⟨⟨"cpu", []⟩, "value"⟩]⟩],
          WalDirState.missing, true, [], true, true⟩ ⟨none, none⟩).1.take 3)).indexDir = none :=
  (indexShard_staging_atomic_publish
    ⟨2, true, true, true, [⟨true, true, [⟨⟨"cpu", []⟩, "value"⟩]⟩],
      WalDirState.missing, true, [], true, true⟩ ⟨none, none⟩ rfl).2.2.1 3 (by decide)

/-- C5 counterexample: a TSM file whose os.Open call fails makes
IndexTSMFile return that error instead of logging and skipping, so the
claim that an open failure yields success does not hold. -/
theorem indexTSMFile_open_failure_aborts :
    (IndexTSMFileRun 10000 ⟨false, true, []⟩).2 = some ShardErr.openErr
    ∧ (IndexTSMFileRun 10000 ⟨false, true, []⟩).2 ≠ none := by
  constructor
  · rfl
  · intro hc
    exact Option.noConfusion hc

/-- C5 amended: only a parse failure (a tsm1.NewTSMReader error) is
logged and skipped with a nil error, so that the shard rebuild
continues with the remaining files; an os.Open failure is returned and
aborts the shard. -/
theorem indexTSMFile_parse_failure_skipped (b : Nat) (f : TSMFile) (rest : List TSMFile) :
    (f.openOk = true → f.parseOk = false →
      IndexTSMFileRun b f = ([], none)
      ∧ indexTSMFilesOps b (f :: rest) = indexTSMFilesOps b rest)
    ∧ (f.openOk = false → IndexTSMFileRun b f = ([], some ShardErr.openErr)) := by
  constructor
  · intro ho hp
    have h1 : IndexTSMFileRun b f = ([], none) := by
      simp [IndexTSMFileRun, ho, hp]
    refine ⟨h1, ?_⟩
    rcases hrec : indexTSMFilesOps b rest with ⟨ops, r⟩
    simp [indexTSMFilesOps, h1, hrec]
  · intro ho
    simp [IndexTSMFileRun, ho]

/-- Witness for amended C5: a parse-failing file is skipped with a nil
error and dropped from the loop, while an open-failing file returns
the open error. -/
theorem indexTSMFile_parse_failure_skipped_witness :
    IndexTSMFileRun 2 ⟨true, false, [⟨⟨"cpu", []⟩, "value"⟩]⟩ = ([], none)
    ∧ IndexTSMFileRun 2 ⟨false, true, []⟩ = ([], some ShardErr.openErr) :=
  ⟨((indexTSMFile_parse_failure_skipped 2 ⟨true, false, [⟨⟨"cpu", []⟩, "value"⟩]⟩ []).1
      rfl rfl).1,
    (indexTSMFile_parse_failure_skipped 2 ⟨false, true, []⟩ []).2 rfl⟩

/-- C6: a missing WAL directory, and an empty walDir argument, are
treated as no unflushed data: the cache phase contributes nothing to
the trace, compaction is reached, and when close and rename succeed
the run ends with a nil error and the final rename; any other error
from listing the WAL directory aborts the run, which then never
renames. -/
theorem indexShard_missing_waldir_not_error (env : ShardEnv) (fs : ShardFS)
    (h : fs.indexDir = none)
    (hrm : env.removeTmpOk = true) (hop : env.openTmpOk = true)
    (hct : env.collectTSMOk = true)
    (htsm : (indexTSMFilesOps env.batchSize env.tsmFiles).2 = none) :
    ((env.walDir = WalDirState.missing ∨ env.walDir = WalDirState.emptyPath) →
        (∀ c, ShardOp.insertCache c ∉ (IndexShardRun env fs).1)
        ∧ ShardOp.compact ∈ (IndexShardRun env fs).1
        ∧ (env.closeOk = true → env.renameOk = true →
            (IndexShardRun env fs).2 = none
            ∧ ShardOp.renameTmpToIndex ∈ (IndexShardRun env fs).1))
    ∧ (env.walDir = WalDirState.unreadable →
        (IndexShardRun env fs).2 = some ShardErr.walListErr
        ∧ ShardOp.renameTmpToIndex ∉ (IndexShardRun env fs).1) := by
  have hs : fs.indexDir.isSome = false := by simp [h]
  rcases ht : indexTSMFilesOps env.batchSize env.tsmFiles with ⟨tsmOps, r1⟩
  rw [ht] at htsm
  simp only at htsm
  subst htsm
  have htsmCls : ∀ op ∈ tsmOps, ∃ c, op = ShardOp.insertTSM c := by
    have hcls := indexTSMFilesOps_ops env.batchSize env.tsmFiles
    rw [ht] at hcls
    exact hcls
  have hnoCacheTsm : ∀ c, ShardOp.insertCache c ∉ tsmOps := by
    intro c hm
    rcases htsmCls _ hm with ⟨c2, hc⟩
    exact ShardOp.noConfusion hc
  have hnoRenTsm : ShardOp.renameTmpToIndex ∉ tsmOps := by
    intro hm
    rcases htsmCls _ hm with ⟨c2, hc⟩
    exact ShardOp.noConfusion hc
  constructor
  · intro hwal
    have hw : cachePhaseOps env = ([], none) := by
      rcases hwal with hwal | hwal <;> simp [cachePhaseOps, collectWALFiles, hwal]
    cases hcl : env.closeOk with
    | false =>
      have hrun : IndexShardRun env fs
          = (ShardOp.removeTmp :: ShardOp.openTmpIndex :: (tsmOps ++ [ShardOp.compact]),
             some ShardErr.closeErr) := by
        simp [IndexShardRun, hs, hrm, hop, hct, ht, hw, hcl]
      refine ⟨?_, ?_, ?_⟩
      · intro c hc
        rw [hrun] at hc
        simp at hc
        exact hnoCacheTsm c hc
      · rw [hrun]
        simp
      · intro hcl2 _
        exact Bool.noConfusion hcl2
    | true =>
      cases hrn : env.renameOk with
      | false =>
        have hrun : IndexShardRun env fs
            = (ShardOp.removeTmp :: ShardOp.openTmpIndex
                :: (tsmOps ++ [ShardOp.compact, ShardOp.closeIndex]),
               some ShardErr.renameErr) := by
          simp [IndexShardRun, hs, hrm, hop, hct, ht, hw, hcl, hrn]
        refine ⟨?_, ?_, ?_⟩
        · intro c hc
          rw [hrun] at hc
          simp at hc
          exact hnoCacheTsm c hc
        · rw [hrun]
          simp
        · intro _ hrn2
          exact Bool.noConfusion hrn2
      | true =>
        have hrun : IndexShardRun env fs
            = (ShardOp.removeTmp :: ShardOp.openTmpIndex
                :: (tsmOps
                  ++ [ShardOp.compact, ShardOp.closeIndex, ShardOp.renameTmpToIndex]),
               none) := by
          simp [IndexShardRun, hs, hrm, hop, hct, ht, hw, hcl, hrn]
        refine ⟨?_, ?_, ?_⟩
        · intro c hc
          rw [hrun] at hc
          simp at hc
          exact hnoCacheTsm c hc
        · rw [hrun]
          simp
        · intro _ _
          refine ⟨by rw [hrun], ?_⟩
          rw [hrun]
          simp
  · intro hwal
    have hw : cachePhaseOps env = ([], some ShardErr.walListErr) := by
      simp [cachePhaseOps, collectWALFiles, hwal]
    have hrun : IndexShardRun env fs
        = (ShardOp.removeTmp :: ShardOp.openTmpIndex :: tsmOps, some ShardErr.walListErr) := by
      simp [IndexShardRun, hs, hrm, hop, hct, ht, hw]
    refine ⟨by rw [hrun], ?_⟩
    rw [hrun]
    intro hc
    simp at hc
    exact hnoRenTsm hc

/-- Witness for C6: with a missing WAL directory and one healthy TSM
file the run succeeds with the final rename in the trace, and with an
unreadable WAL directory the run aborts with the listing error. -/
theorem indexShard_missing_waldir_not_error_witness :
    ((IndexShardRun ⟨2, true, true, true, [⟨true, true, [⟨⟨"cpu", []⟩, "value"⟩]⟩],
        WalDirState.missing, true, [], true, true⟩ ⟨none, none⟩).2 = none
      ∧ ShardOp.renameTmpToIndex ∈ (IndexShardRun ⟨2, true, true, true,
          [⟨true, true, [⟨⟨"cpu", []⟩, "value"⟩]⟩],
          WalDirState.missing, true, [], true, true⟩ ⟨none, none⟩).1)
    ∧ (IndexShardRun ⟨2, true, true, true, [⟨true, true, [⟨⟨"cpu", []⟩, "value"⟩]⟩],
        WalDirState.unreadable, true, [], true, true⟩ ⟨none, none⟩).2
          = some ShardErr.walListErr :=
  ⟨((indexShard_missing_waldir_not_error
      ⟨2, true, true, true, [⟨true, true, [⟨⟨"cpu", []⟩, "value"⟩]⟩],
        WalDirState.missing, true, [], true, true⟩ ⟨none, none⟩ rfl rfl rfl rfl
      (by decide)).1 (Or.inl rfl)).2.2 rfl rfl,
    ((indexShard_missing_waldir_not_error
      ⟨2, true, true, true, [⟨true, true, [⟨⟨"cpu", []⟩, "value"⟩]⟩],
        WalDirState.unreadable, true, [], true, true⟩ ⟨none, none⟩ rfl rfl rfl rfl
      (by decide)).2 rfl).1⟩

/-- Whether a trace operation is a series insert from the TSM call
site. -/
def ShardOp.isInsertTSM : ShardOp → Bool
  | .insertTSM _ => true
  | _ => false

/-- Whether a trace operation is a series insert from the cache call
site. -/
def ShardOp.isInsertCache : ShardOp → Bool
  | .insertCache _ => true
  | _ => false

/-- Whether a trace operation is a series insert from either call
site. -/
def ShardOp.isInsert (op : ShardOp) : Bool :=
  op.isInsertTSM || op.isInsertCache

/-- A filter by a predicate false on every element yields the empty
list. -/
theorem filter_eq_nil_of_all {α : Type} (p : α → Bool) :
    ∀ l : List α, (∀ a ∈ l, p a = false) → l.filter p = [] := by
  intro l
  induction l with
  | nil => intro _; rfl
  | cons a rest ih =>
    intro hall
    have ha := hall a (List.mem_cons_self a rest)
    simp [List.filter_cons, ha, ih fun x hx => hall x (List.mem_cons_of_mem a hx)]

/-- On a trace of the shape prefix operations, then TSM inserts, then
cache inserts, then lifecycle tail, the insert filter splits as the
TSM-insert filter followed by the cache-insert filter. -/
theorem filter_insert_shape (l1 l2 l3 : List ShardOp)
    (h1 : ∀ op ∈ l1, ∃ c, op = ShardOp.insertTSM c)
    (h2 : ∀ op ∈ l2, ∃ c, op = ShardOp.insertCache c)
    (h3 : ∀ op ∈ l3, op = ShardOp.compact ∨ op = ShardOp.closeIndex
        ∨ op = ShardOp.renameTmpToIndex)
    (pre : List ShardOp)
    (hpre : ∀ op ∈ pre, op = ShardOp.removeTmp ∨ op = ShardOp.openTmpIndex) :
    (pre ++ (l1 ++ l2 ++ l3)).filter ShardOp.isInsert
      = (pre ++ (l1 ++ l2 ++ l3)).filter ShardOp.isInsertTSM
        ++ (pre ++ (l1 ++ l2 ++ l3)).filter ShardOp.isInsertCache := by
  have epI : pre.filter ShardOp.isInsert = [] := by
    refine filter_eq_nil_of_all _ pre fun op hm => ?_
    rcases hpre op hm with rfl | rfl <;> rfl
  have epT : pre.filter ShardOp.isInsertTSM = [] := by
    refine filter_eq_nil_of_all _ pre fun op hm => ?_
    rcases hpre op hm with rfl | rfl <;> rfl
  have epC : pre.filter ShardOp.isInsertCache = [] := by
    refine filter_eq_nil_of_all _ pre fun op hm => ?_
    rcases hpre op hm with rfl | rfl <;> rfl
  have e1I : l1.filter ShardOp.isInsert = l1 := by
    refine List.filter_eq_self.mpr fun op hm => ?_
    obtain ⟨c, rfl⟩ := h1 op hm
    rfl
  have e1T : l1.filter ShardOp.isInsertTSM = l1 := by
    refine List.filter_eq_self.mpr fun op hm => ?_
    obtain ⟨c, rfl⟩ := h1 op hm
    rfl
  have e1C : l1.filter ShardOp.isInsertCache = [] := by
    refine filter_eq_nil_of_all _ l1 fun op hm => ?_
    obtain ⟨c, rfl⟩ := h1 op hm
    rfl
  have e2I : l2.filter ShardOp.isInsert = l2 := by
    refine List.filter_eq_self.mpr fun op hm => ?_
    obtain ⟨c, rfl⟩ := h2 op hm
    rfl
  have e2T : l2.filter ShardOp.isInsertTSM = [] := by
    refine filter_eq_nil_of_all _ l2 fun op hm => ?_
    obtain ⟨c, rfl⟩ := h2 op hm
    rfl
  have e2C : l2.filter ShardOp.isInsertCache = l2 := by
    refine List.filter_eq_self.mpr fun op hm => ?_
    obtain ⟨c, rfl⟩ := h2 op hm
    rfl
  have e3I : l3.filter ShardOp.isInsert = [] := by
    refine filter_eq_nil_of_all _ l3 fun op hm => ?_
    rcases h3 op hm with rfl | rfl | rfl <;> rfl
  have e3T : l3.filter ShardOp.isInsertTSM = [] := by
    refine filter_eq_nil_of_all _ l3 fun op hm => ?_
    rcases h3 op hm with rfl | rfl | rfl <;> rfl
  have e3C : l3.filter ShardOp.isInsertCache = [] := by
    refine filter_eq_nil_of_all _ l3 fun op hm => ?_
    rcases h3 op hm with rfl | rfl | rfl <;> rfl
  simp [List.filter_append, epI, epT, epC, e1I, e1T, e1C, e2I, e2T, e2C, e3I, e3T, e3C]

/-- C8: within one shard run, every series insert from the TSM segment
files precedes every series insert from the WAL-replayed cache: the
insert subsequence of the trace is the TSM inserts followed by the
cache inserts. -/
theorem tsm_inserts_precede_cache_inserts (env : ShardEnv) (fs : ShardFS) :
    (IndexShardRun env fs).1.filter ShardOp.isInsert
      = (IndexShardRun env fs).1.filter ShardOp.isInsertTSM
        ++ (IndexShardRun env fs).1.filter ShardOp.isInsertCache := by
  by_cases hidx : fs.indexDir.isSome
  · have hrun : IndexShardRun env fs = ([], none) := by
      unfold IndexShardRun
      rw [if_pos hidx]
    rw [hrun]
    rfl
  · have hs : fs.indexDir.isSome = false := by
      simp at hidx
      simp [hidx]
    have hpre2 : ∀ op ∈ [ShardOp.removeTmp, ShardOp.openTmpIndex],
        op = ShardOp.removeTmp ∨ op = ShardOp.openTmpIndex := by
      intro op hm
      rcases List.mem_cons.mp hm with rfl | hm1
      · exact Or.inl rfl
      rcases List.mem_singleton.mp hm1 with rfl
      exact Or.inr rfl
    cases hrm : env.removeTmpOk with
    | false =>
      have hrun : IndexShardRun env fs = ([], some ShardErr.removeErr) := by
        simp [IndexShardRun, hs, hrm]
      rw [hrun]
      rfl
    | true =>
    cases hop : env.openTmpOk with
    | false =>
      have hrun : IndexShardRun env fs = ([ShardOp.removeTmp], some ShardErr.openIndexErr) := by
        simp [IndexShardRun, hs, hrm, hop]
      rw [hrun]
      rfl
    | true =>
    cases hct : env.collectTSMOk with
    | false =>
      have hrun : IndexShardRun env fs
          = ([ShardOp.removeTmp, ShardOp.openTmpIndex], some ShardErr.readDirErr) := by
        simp [IndexShardRun, hs, hrm, hop, hct]
      rw [hrun]
      rfl
    | true =>
    rcases ht : indexTSMFilesOps env.batchSize env.tsmFiles with ⟨tsmOps, r1⟩
    have htsmCls : ∀ op ∈ tsmOps, ∃ c, op = ShardOp.insertTSM c := by
      have hcls := indexTSMFilesOps_ops env.batchSize env.tsmFiles
      rw [ht] at hcls
      exact hcls
    cases r1 with
    | some e =>
      have hrun : IndexShardRun env fs
          = (ShardOp.removeTmp :: ShardOp.openTmpIndex :: tsmOps, some e) := by
        simp [IndexShardRun, hs, hrm, hop, hct, ht]
      rw [hrun]
      have hsh := filter_insert_shape tsmOps [] [] htsmCls (by simp) (by simp)
        [ShardOp.removeTmp, ShardOp.openTmpIndex] hpre2
      simpa using hsh
    | none =>
    rcases hw : cachePhaseOps env with ⟨walOps, r2⟩
    have hwalCls : ∀ op ∈ walOps, ∃ c, op = ShardOp.insertCache c := by
      have hcls := cachePhaseOps_ops env
      rw [hw] at hcls
      exact hcls
    cases r2 with
    | some e =>
      have hrun : IndexShardRun env fs
          = (ShardOp.removeTmp :: ShardOp.openTmpIndex :: (tsmOps ++ walOps), some e) := by
        simp [IndexShardRun, hs, hrm, hop, hct, ht, hw]
      rw [hrun]
      have hsh := filter_insert_shape tsmOps walOps [] htsmCls hwalCls (by simp)
        [ShardOp.removeTmp, ShardOp.openTmpIndex] hpre2
      simpa using hsh
    | none =>
    cases hcl : env.closeOk with
    | false =>
      have hrun : IndexShardRun env fs
          = (ShardOp.removeTmp :: ShardOp.openTmpIndex
              :: (tsmOps ++ walOps ++ [ShardOp.compact]), some ShardErr.closeErr) := by
        simp [IndexShardRun, hs, hrm, hop, hct, ht, hw, hcl]
      rw [hrun]
      have hsh := filter_insert_shape tsmOps walOps [ShardOp.compact] htsmCls hwalCls
        (by intro op hm; rcases List.mem_singleton.mp hm with rfl; exact Or.inl rfl)
        [ShardOp.removeTmp, ShardOp.openTmpIndex] hpre2
      simpa using hsh
    | true =>
    cases hrn : env.renameOk with
    | false =>
      have hrun : IndexShardRun env fs
          = (ShardOp.removeTmp :: ShardOp.openTmpIndex
              :: (tsmOps ++ walOps ++ [ShardOp.compact, ShardOp.closeIndex]),
             some ShardErr.renameErr) := by
        simp [IndexShardRun, hs, hrm, hop, hct, ht, hw, hcl, hrn]
      rw [hrun]
      have hsh := filter_insert_shape tsmOps walOps [ShardOp.compact, ShardOp.closeIndex]
        htsmCls hwalCls
        (by
          intro op hm
          rcases List.mem_cons.mp hm with rfl | hm1
          · exact Or.inl rfl
          rcases List.mem_singleton.mp hm1 with rfl
          exact Or.inr (Or.inl rfl))
        [ShardOp.removeTmp, ShardOp.openTmpIndex] hpre2
      simpa using hsh
    | true =>
      have hrun : IndexShardRun env fs
          = (ShardOp.removeTmp :: ShardOp.openTmpIndex
              :: (tsmOps ++ walOps
                ++ [ShardOp.compact, ShardOp.closeIndex, ShardOp.renameTmpToIndex]), none) := by
        simp [IndexShardRun, hs, hrm, hop, hct, ht, hw, hcl, hrn]
      rw [hrun]
      have hsh := filter_insert_shape tsmOps walOps
        [ShardOp.compact, ShardOp.closeIndex, ShardOp.renameTmpToIndex] htsmCls hwalCls
        (by
          intro op hm
          rcases List.mem_cons.mp hm with rfl | hm1
          · exact Or.inl rfl
          rcases List.mem_cons.mp hm1 with rfl | hm2
          · exact Or.inr (Or.inl rfl)
          rcases List.mem_singleton.mp hm2 with rfl
          exact Or.inr (Or.inr rfl))
        [ShardOp.removeTmp, ShardOp.openTmpIndex] hpre2
      simpa using hsh

/-- The claim indices successive atomic.AddUint32 increments hand to
the workers of processRetentionPolicy in linearization order: starting
from counter value c, m further increments return c, c+1, ...,
c+m-1, independent of which worker performs each increment; a worker
that draws an index at or beyond the shard count stops. -/
def workerClaims : Nat → Nat → List Nat
  | _, 0 => []
  | c, m + 1 => c :: workerClaims (c + 1) m

/-- The shard indices processed when m claims are drawn over n shards:
a claimed index is processed exactly when it is below the shard
count. -/
def processedShards (n m : Nat) : List Nat :=
  (workerClaims 0 m).filter fun i => decide (i < n)

/-- The result-drain loop of processRetentionPolicy: one channel
receive per iteration, over at most cap(errC) iterations, returning
the first non-nil error immediately. -/
def drainErrC : List (Option ShardErr) → Option ShardErr
  | [] => none
  | some e :: _ => some e
  | none :: rest => drainErrC rest

/-- The number of channel receives the drain loop performs on a given
sequence of per-shard results. -/
def drainReceives : List (Option ShardErr) → Nat
  | [] => 0
  | some _ :: _ => 1
  | none :: rest => drainReceives rest + 1

/-- The claim sequence starting at c is the interval of m naturals
starting at c. -/
theorem workerClaims_eq_range' : ∀ (m c : Nat), workerClaims c m = List.range' c m := by
  intro m
  induction m with
  | zero => intro c; rfl
  | succ k ih =>
    intro c
    simp [workerClaims, List.range', ih]

/-- With at least as many claims as shards, the processed shard
indices are exactly 0, ..., n-1, each exactly once. -/
theorem processedShards_complete (n m : Nat) (h : n ≤ m) :
    processedShards n m = List.range n := by
  unfold processedShards
  rw [workerClaims_eq_range', ← List.range_eq_range']
  obtain ⟨k, rfl⟩ : ∃ k, m = n + k := ⟨m - n, by omega⟩
  rw [List.range_add, List.filter_append]
  have h1 : (List.range n).filter (fun i => decide (i < n)) = List.range n := by
    refine List.filter_eq_self.mpr fun i hm => ?_
    simp [List.mem_range.mp hm]
  have h2 : ((List.range k).map (n + ·)).filter (fun i => decide (i < n)) = [] := by
    refine filter_eq_nil_of_all _ _ fun i hm => ?_
    rcases List.mem_map.mp hm with ⟨j, _, rfl⟩
    simp
  rw [h1, h2, List.append_nil]

/-- C7 counterexample: with two shards and an error in the first
drained result, the orchestrator performs one receive, not one per
shard: it returns at the first non-nil error without draining the
rest. -/
theorem drain_early_return_receives_fewer :
    drainReceives [some ShardErr.closeErr, none] = 1
    ∧ drainReceives [some ShardErr.closeErr, none]
        ≠ ([some ShardErr.closeErr, none] : List (Option ShardErr)).length := by
  constructor
  · rfl
  · decide

/-- C7 amended: the worker pool claims shards by atomic increments of
the shared cursor, so with enough claims each shard index is processed
exactly once and none twice; the orchestrator drains one result per
iteration and returns the first non-nil error immediately, draining
exactly one result per shard when every result is nil and performing
k+1 receives when the first error sits after k nil results; it never
receives more results than were sent and signals no cancellation to
the workers. -/
theorem worker_pool_claims_and_drain (n m : Nat) (h : n ≤ m) :
    (processedShards n m = List.range n ∧ (processedShards n m).Nodup)
    ∧ (∀ (k : Nat) (e : ShardErr) (rest : List (Option ShardErr)),
        drainErrC (List.replicate k none ++ some e :: rest) = some e)
    ∧ drainErrC (List.replicate n none) = none
    ∧ drainReceives (List.replicate n none) = n
    ∧ (∀ rs : List (Option ShardErr), drainReceives rs ≤ rs.length)
    ∧ (∀ (k : Nat) (e : ShardErr) (rest : List (Option ShardErr)),
        drainReceives (List.replicate k none ++ some e :: rest) = k + 1) := by
  refine ⟨⟨processedShards_complete n m h, ?_⟩, ?_, ?_, ?_, ?_, ?_⟩
  · rw [processedShards_complete n m h]
    exact List.nodup_range n
  · intro k e rest
    induction k with
    | zero => rfl
    | succ j ih => simpa [List.replicate_succ, drainErrC] using ih
  · clear h
    induction n with
    | zero => rfl
    | succ j ih => simpa [List.replicate_succ, drainErrC] using ih
  · clear h
    induction n with
    | zero => rfl
    | succ j ih => simp [List.replicate_succ, drainReceives, ih]
  · intro rs
    induction rs with
    | nil => exact Nat.le_refl 0
    | cons r rest ih =>
      cases r with
      | none => simpa [drainReceives] using ih
      | some e => simp [drainReceives]
  · intro k e rest
    induction k with
    | zero => rfl
    | succ j ih => simp [List.replicate_succ, drainReceives, ih]

/-- Witness for amended C7: four claims over three shards process
exactly the shard indices zero, one, two once each, and draining three
nil results performs three receives and returns nil. -/
theorem worker_pool_claims_and_drain_witness :
    processedShards 3 4 = List.range 3
    ∧ drainErrC (List.replicate 3 none) = none
    ∧ drainReceives (List.replicate 3 none) = 3 :=
  ⟨((worker_pool_claims_and_drain 3 4 (by decide)).1).1,
    (worker_pool_claims_and_drain 3 4 (by decide)).2.2.1,
    (worker_pool_claims_and_drain 3 4 (by decide)).2.2.2.1⟩
